import Mathlib

/-!
Verification of the code-generation utility layer of `cortex-m-rtfm`
(`macros/src/codegen/util.rs`).

The file shallowly embeds the pure content of that module:

* `Ident` values are embedded as their name `String`;
* `TokenStream` values are embedded as their rendered `String`;
* `Core` (which is `u8` in `rtfm_syntax`) and priorities (`u8`) are embedded
  as `Nat`, with `< 256` bounds supplied as hypotheses where a theorem needs
  them;
* Rust's `format!("{}", n)` rendering of an unsigned integer is decimal with
  no leading zeros, which is exactly `Nat.repr`;
* a Rust panic (the `expect("UNREACHABLE")` in `capacity_typenum`) is
  embedded as `Option.none`.

Theorems about name injectivity work on `String.data` (lists of characters):
a decimal digit run followed by a non-digit separator can be cancelled from
an equality of character lists, and `Nat.repr` is injective below 256 because
an explicit decoder recovers the number from its digits.
-/

set_option maxRecDepth 10000

namespace Rtfm

/-- Decodes a list of decimal digit characters back into a number; used only
to establish injectivity of `Nat.repr` on the `u8` range. -/
def decodeDigits (l : List Char) : Nat :=
  l.foldl (fun a c => 10 * a + (c.toNat - 48)) 0

/-- Every character of the decimal rendering of a `u8` value is a digit. -/
theorem repr_all_digits : ∀ m : Fin 256, ((Nat.repr m.val).data.all Char.isDigit) = true := by
  decide

/-- The decimal rendering of a `u8` value decodes back to the value. -/
theorem repr_decode : ∀ m : Fin 256, decodeDigits (Nat.repr m.val).data = m.val := by
  decide

/-- Decimal rendering is injective on the `u8` range, at the character-list level. -/
theorem repr_data_inj {a b : Nat} (ha : a < 256) (hb : b < 256)
    (h : (Nat.repr a).data = (Nat.repr b).data) : a = b := by
  have h1 := repr_decode ⟨a, ha⟩
  have h2 := repr_decode ⟨b, hb⟩
  simp only at h1 h2
  rw [← h1, ← h2, h]

/-- Membership form of `repr_all_digits`. -/
theorem repr_mem_digit {a : Nat} (ha : a < 256) :
    ∀ c ∈ (Nat.repr a).data, c.isDigit = true := by
  have h1 := repr_all_digits ⟨a, ha⟩
  simp only [List.all_eq_true] at h1
  exact h1

/-- If two concatenations agree, the runs of characters satisfying `p` at the
front agree as well, provided both remainders start with a character that
does not satisfy `p`. -/
theorem run_append_cancel (p : Char → Bool) :
    ∀ (a a' b b' : List Char),
    (∀ c ∈ a, p c = true) → (∀ c ∈ a', p c = true) →
    (∀ c, b.head? = some c → p c = false) → (∀ c, b'.head? = some c → p c = false) →
    a ++ b = a' ++ b' → a = a' ∧ b = b' := by
  intro a
  induction a with
  | nil =>
    intro a' b b' _ ha' hb _ h
    cases a' with
    | nil => exact ⟨rfl, h⟩
    | cons c' t' =>
      exfalso
      simp only [List.nil_append, List.cons_append] at h
      have h1 : p c' = true := ha' c' (List.mem_cons_self _ _)
      have h2 : p c' = false := hb c' (by rw [h]; rfl)
      rw [h1] at h2
      exact Bool.noConfusion h2
  | cons c t ih =>
    intro a' b b' ha ha' hb hb' h
    cases a' with
    | nil =>
      exfalso
      simp only [List.nil_append, List.cons_append] at h
      have h1 : p c = true := ha c (List.mem_cons_self _ _)
      have h2 : p c = false := hb' c (by rw [← h]; rfl)
      rw [h1] at h2
      exact Bool.noConfusion h2
    | cons c' t' =>
      simp only [List.cons_append, List.cons.injEq] at h
      obtain ⟨rfl, h2⟩ := h
      obtain ⟨h3, h4⟩ := ih t' b b'
        (fun x hx => ha x (List.mem_cons_of_mem _ hx))
        (fun x hx => ha' x (List.mem_cons_of_mem _ hx)) hb hb' h2
      exact ⟨by rw [h3], h4⟩

/-- Cancels a leading decimal rendering of a `u8` value from an equality of
character lists whose remainders start with a non-digit. -/
theorem digit_block_cancel {x y : Nat} (hx : x < 256) (hy : y < 256)
    {u v : List Char}
    (hu : ∀ c, u.head? = some c → c.isDigit = false)
    (hv : ∀ c, v.head? = some c → c.isDigit = false)
    (h : (Nat.repr x).data ++ u = (Nat.repr y).data ++ v) : x = y ∧ u = v := by
  obtain ⟨h1, h2⟩ := run_append_cancel Char.isDigit _ _ _ _
    (repr_mem_digit hx) (repr_mem_digit hy) hu hv h
  exact ⟨repr_data_inj hx hy h1, h2⟩

/-- Reversed variant of `digit_block_cancel`, used when the digit run is at
the end of the identifier and we reason from the right. -/
theorem digit_block_cancel_rev {x y : Nat} (hx : x < 256) (hy : y < 256)
    {u v : List Char}
    (hu : ∀ c, u.head? = some c → c.isDigit = false)
    (hv : ∀ c, v.head? = some c → c.isDigit = false)
    (h : (Nat.repr x).data.reverse ++ u = (Nat.repr y).data.reverse ++ v) :
    x = y ∧ u = v := by
  obtain ⟨h1, h2⟩ := run_append_cancel Char.isDigit _ _ _ _
    (fun c hc => repr_mem_digit hx c (List.mem_reverse.mp hc))
    (fun c hc => repr_mem_digit hy c (List.mem_reverse.mp hc)) hu hv h
  exact ⟨repr_data_inj hx hy (List.reverse_injective h1), h2⟩

/-- A list starting with a fixed non-digit character has a non-digit head. -/
theorem nondigit_head {c : Char} (hc : c.isDigit = false) (l : List Char) :
    ∀ x, (c :: l).head? = some x → x.isDigit = false := by
  intro x hx
  rw [List.head?_cons, Option.some.injEq] at hx
  rw [← hx]
  exact hc

/-!
Embedding of `macros/src/codegen/util.rs`. Each definition carries the name
of the Rust function it embeds.
-/

/-- Embeds `u8::checked_next_power_of_two` from the Rust standard library:
the smallest power of two greater than or equal to the argument (`1` for
argument `0`), or `none` when that power does not fit in a `u8`. The powers
of two representable in a `u8` are exactly `2 ^ k` for `k < 8`. -/
def checked_next_power_of_two (n : Nat) : Option Nat :=
  ((List.range 8).map (fun k => 2 ^ k)).find? (fun p => n ≤ p)

/-- Embeds `capacity_typenum` (util.rs lines 14-24): renders the capacity —
rounded up to the next power of two when requested — as the `typenum` path
`rtfm::export::consts::U{c}`. The Rust `expect("UNREACHABLE")` panic on
overflow of `checked_next_power_of_two` is embedded as `none`. -/
def capacity_typenum (capacity : Nat) (round_up_to_power_of_two : Bool) : Option String :=
  match (if round_up_to_power_of_two then checked_next_power_of_two capacity
         else some capacity) with
  | some c => some ("rtfm::export::consts::U" ++ Nat.repr c)
  | none => none

/-- Embeds `cfg_core` (util.rs lines 27-34): no attribute in single-core mode,
otherwise a `#[cfg(core = "N")]` attribute with the core rendered in decimal. -/
def cfg_core (core : Nat) (cores : Nat) : Option String :=
  if cores = 1 then none
  else some ("#[cfg(core = \"" ++ Nat.repr core ++ "\")]")

/-- Embeds `fq_ident` (util.rs lines 40-45): the free-queue identifier
`{task}_S{sender}_FQ`. -/
def fq_ident (task : String) (sender : Nat) : String :=
  task ++ "_S" ++ Nat.repr sender ++ "_FQ"

/-- Embeds `init_barrier` (util.rs lines 91-93): the cross-initialization
barrier identifier `IB{initializer}`. -/
def init_barrier (initializer : Nat) : String :=
  "IB" ++ Nat.repr initializer

/-- Embeds `inputs_ident` (util.rs lines 96-98): the `INPUTS` buffer
identifier `{task}_S{sender}_INPUTS`. -/
def inputs_ident (task : String) (sender : Nat) : String :=
  task ++ "_S" ++ Nat.repr sender ++ "_INPUTS"

/-- Embeds `instants_ident` (util.rs lines 101-103): the `INSTANTS` buffer
identifier `{task}_S{sender}_INSTANTS`. -/
def instants_ident (task : String) (sender : Nat) : String :=
  task ++ "_S" ++ Nat.repr sender ++ "_INSTANTS"

/-- Embeds `rendezvous_ident` (util.rs lines 127-129): the rendezvous barrier
identifier `RV{core}`. -/
def rendezvous_ident (core : Nat) : String :=
  "RV" ++ Nat.repr core

/-- Embeds `rq_ident` (util.rs lines 198-203): the ready-queue identifier
`R{receiver}_P{priority}_S{sender}_RQ`. -/
def rq_ident (receiver : Nat) (priority : Nat) (sender : Nat) : String :=
  "R" ++ Nat.repr receiver ++ "_P" ++ Nat.repr priority ++ "_S" ++ Nat.repr sender ++ "_RQ"

/-- Embeds `schedule_ident` (util.rs lines 209-214): the schedule-function
identifier `schedule_{name}_S{sender}`. -/
def schedule_ident (name : String) (sender : Nat) : String :=
  "schedule_" ++ name ++ "_S" ++ Nat.repr sender

/-- Embeds `schedule_t_ident` (util.rs lines 217-219): the identifier
`T{core}` of the enum of schedulable tasks. -/
def schedule_t_ident (core : Nat) : String :=
  "T" ++ Nat.repr core

/-- Embeds `spawn_barrier` (util.rs lines 222-224): the cross-spawn barrier
identifier `SB{receiver}`. -/
def spawn_barrier (receiver : Nat) : String :=
  "SB" ++ Nat.repr receiver

/-- Embeds `spawn_ident` (util.rs lines 230-235): the spawn-function
identifier `spawn_{name}_S{sender}`. -/
def spawn_ident (name : String) (sender : Nat) : String :=
  "spawn_" ++ name ++ "_S" ++ Nat.repr sender

/-- Embeds `spawn_t_ident` (util.rs lines 241-246): the identifier
`R{receiver}_P{priority}_S{sender}_T` of the enum of spawnable tasks. -/
def spawn_t_ident (receiver : Nat) (priority : Nat) (sender : Nat) : String :=
  "R" ++ Nat.repr receiver ++ "_P" ++ Nat.repr priority ++ "_S" ++ Nat.repr sender ++ "_T"

/-- Embeds `tq_ident` (util.rs lines 251-253): the timer-queue identifier
`TQ{core}`; it takes the core and nothing else. -/
def tq_ident (core : Nat) : String :=
  "TQ" ++ Nat.repr core

/-- Embeds the `Extra` argument of `impl_mutex`; only its `device` path is
used by that function. -/
structure Extra where
  device : String

/-- The pieces of the `Mutex` implementation emitted by `impl_mutex`:
the outer attributes, the implemented path, the resource type, the value of
the generated `const CEILING: u8`, and the four arguments the generated
`lock` method passes to `rtfm::export::lock` (the data pointer, the caller
priority expression, the ceiling, and the device `NVIC_PRIO_BITS` path). -/
structure MutexImpl where
  cfgs : List String
  cfg_core_attr : Option String
  path : String
  ty : String
  ceiling_const : Nat
  lock_arg_ptr : String
  lock_arg_priority : String
  lock_arg_ceiling : Nat
  lock_arg_prio_bits : String

/-- Embeds `impl_mutex` (util.rs lines 48-88): builds the `Mutex`
implementation for one resource, embedding the declared `ceiling` as the
`CEILING` constant and passing it, together with the caller's priority
expression, to `rtfm::export::lock`. -/
def impl_mutex (extra : Extra) (cfgs : List String) (cfg_core : Option String)
    ( resources_prefix : Bool) (name : String) (ty : String) (ceiling : Nat)
    (ptr : String) : MutexImpl :=
  let path := if resources_prefix then "resources::" ++ name else name
  let priority := if resources_prefix then "self.priority()" else "self.priority"
  { cfgs := cfgs
    cfg_core_attr := cfg_core
    path := path
    ty := ty
    ceiling_const := ceiling
    lock_arg_ptr := ptr
    lock_arg_priority := priority
    lock_arg_ceiling := ceiling
    lock_arg_prio_bits := extra.device ++ "::NVIC_PRIO_BITS" }

/-- Observable outcome of one execution of the locking primitive: the
effective priority while the body runs, the priority after the call
returns, and the returned value. -/
structure LockExec (α : Type) where
  body_priority : Nat
  exit_priority : Nat
  result : α

/-- Modelled from the spec: `rtfm::export::lock` is part of the `rtfm`
runtime crate, not of this source tree. Per the spec (section 4.2), on entry
the executing task's effective priority is raised to the resource's static
ceiling, the body runs with exclusive access to the resource and its result
is returned, and on exit the previous priority is restored. -/
def export_lock {σ α : Type} (res : σ) (current : Nat) (ceiling : Nat)
    (f : σ → α) : LockExec α :=
  { body_priority := ceiling
    exit_priority := current
    result := f res }

/-- Runs the `lock` method generated by `impl_mutex`: it invokes the locking
primitive with the generated `CEILING` constant as the ceiling argument. -/
def MutexImpl.run_lock {σ α : Type} (m : MutexImpl) (res : σ) (current : Nat)
    (f : σ → α) : LockExec α :=
  export_lock res current m.lock_arg_ceiling f

/-- Embeds `regroup_inputs` (util.rs lines 134-178). An `ArgCaptured` input
is embedded as its rendered type; the returned quadruple is (argument list,
tupled pattern, untupled pattern list, payload type). A single input keeps
its own type and the single binding `_0`; otherwise the inputs are numbered
`_0`, `_1`, ... and the payload type is the tuple of all input types. -/
def regroup_inputs (inputs : List String) :
    List String × String × List String × String :=
  if inputs.length = 1 then
    (["_0: " ++ inputs.headI], "_0", ["_0"], inputs.headI)
  else
    let args := inputs.enum.map (fun p => "_" ++ Nat.repr p.1 ++ ": " ++ p.2)
    let pats := inputs.enum.map (fun p => "_" ++ Nat.repr p.1)
    let tys := inputs
    let tupled := "(" ++ String.join (pats.map (fun p => p ++ ", ")) ++ ")"
    let ty := "(" ++ String.join (tys.map (fun t => t ++ ", ")) ++ ")"
    (args, tupled, pats, ty)

/-!
Helper results about `checked_next_power_of_two` on the `u8` range.
-/

/-- The rounded capacity, as a total function on the range where the Rust
function does not panic (used to phrase the decidable core lemma). -/
def next_pow2_u8 (n : Nat) : Nat :=
  (checked_next_power_of_two n).getD 0

/-- Decidable core facts about capacity rounding, checked on every
capacity from 0 to 128: the rounding succeeds and returns `next_pow2_u8`,
which is at least the capacity, is minimal (it is 1 or its half is below the
capacity), is a power of two, and fixes powers of two. -/
theorem next_pow2_u8_core : ∀ c : Fin 129,
    checked_next_power_of_two c.val = some (next_pow2_u8 c.val) ∧
    c.val ≤ next_pow2_u8 c.val ∧
    (next_pow2_u8 c.val = 1 ∨ next_pow2_u8 c.val / 2 < c.val) ∧
    ((List.range 8).any (fun j => next_pow2_u8 c.val == 2 ^ j)) = true ∧
    (((List.range 8).any (fun j => c.val == 2 ^ j)) = true →
      next_pow2_u8 c.val = c.val) := by
  decide

/-- A power of two that is at least `c` and whose half is below `c` is the
least power of two at least `c`. -/
theorem pow_two_least {c m : Nat} (h1 : c ≤ m) (hj : ∃ j, m = 2 ^ j)
    (h3 : m = 1 ∨ m / 2 < c) : ∀ k, c ≤ 2 ^ k → m ≤ 2 ^ k := by
  intro k hk
  obtain ⟨j, rfl⟩ := hj
  cases h3 with
  | inl h => rw [h]; exact Nat.one_le_two_pow
  | inr h =>
    cases j with
    | zero => exact Nat.pow_le_pow_right (by norm_num) (Nat.zero_le k)
    | succ i =>
      have hhalf : 2 ^ (i + 1) / 2 = 2 ^ i := by
        rw [Nat.pow_succ, Nat.mul_div_cancel _ (by norm_num)]
      rw [hhalf] at h
      have hik : 2 ^ i < 2 ^ k := lt_of_lt_of_le h hk
      have : i < k := (Nat.pow_lt_pow_iff_right (by norm_num)).mp hik
      exact Nat.pow_le_pow_right (by norm_num) this

/-- C1 (amended: restricted to declared capacities at most 128, the range on
which the rounding does not panic — see the counterexample at 129): for every
capacity `c ≤ 128`, `capacity_typenum c true` names the `typenum` constant of
the least power of two greater than or equal to `c`; a capacity that is
already a power of two is left unchanged; declaring capacity 5 yields
effective capacity 8. -/
theorem capacity_typenum_rounds_up :
    capacity_typenum 5 true = some "rtfm::export::consts::U8" ∧
    ∀ c : Nat, c ≤ 128 →
      ∃ m, checked_next_power_of_two c = some m ∧
        capacity_typenum c true = some ("rtfm::export::consts::U" ++ Nat.repr m) ∧
        c ≤ m ∧ (∃ k, m = 2 ^ k) ∧ (∀ k, c ≤ 2 ^ k → m ≤ 2 ^ k) ∧
        ((∃ k, c = 2 ^ k) → m = c) := by
  constructor
  · decide
  · intro c hc
    obtain ⟨h1, h2, h3, h4, h5⟩ := next_pow2_u8_core ⟨c, Nat.lt_succ_of_le hc⟩
    have hpow : ∃ k, next_pow2_u8 c = 2 ^ k := by
      rw [List.any_eq_true] at h4
      obtain ⟨j, _, hjeq⟩ := h4
      exact ⟨j, by simpa using hjeq⟩
    refine ⟨next_pow2_u8 c, h1, ?_, h2, hpow, pow_two_least h2 hpow h3, ?_⟩
    · simp [capacity_typenum, h1]
    · rintro ⟨k, hck⟩
      have hk8 : k < 8 := by
        by_contra hk
        push_neg at hk
        have h256 : (256 : Nat) ≤ c := by
          rw [hck]
          calc (256 : Nat) = 2 ^ 8 := by norm_num
            _ ≤ 2 ^ k := Nat.pow_le_pow_right (by norm_num) hk
        omega
      apply h5
      rw [List.any_eq_true]
      exact ⟨k, List.mem_range.mpr hk8, by simp [hck]⟩

/-- Witness for C1 at the concrete capacity 5. -/
theorem capacity_typenum_rounds_up_witness :
    (5 : Nat) ≤ 128 ∧
    ∃ m, checked_next_power_of_two 5 = some m ∧
      capacity_typenum 5 true = some ("rtfm::export::consts::U" ++ Nat.repr m) ∧
      5 ≤ m ∧ (∃ k, m = 2 ^ k) ∧ (∀ k, 5 ≤ 2 ^ k → m ≤ 2 ^ k) ∧
      ((∃ k, (5 : Nat) = 2 ^ k) → m = 5) :=
  ⟨by decide, capacity_typenum_rounds_up.2 5 (by decide)⟩

/-- C1 counterexample: the claim quantifies over every 8-bit capacity, but at
declared capacity 129 `capacity_typenum` panics (embedded as `none`) instead
of naming a type-level constant. -/
theorem capacity_typenum_at_129 : capacity_typenum 129 true = none := by
  decide

/-- C8: `capacity_typenum c true` is not total on the 8-bit range: it panics
(returns `none`) for every capacity in 129..=255 because
`checked_next_power_of_two` overflows a `u8` there, it returns a value for
every capacity at most 128, and capacity 0 maps to capacity 1. -/
theorem capacity_typenum_partiality :
    (∀ c : Nat, 129 ≤ c → c ≤ 255 → capacity_typenum c true = none) ∧
    (∀ c : Nat, c ≤ 128 → ∃ s, capacity_typenum c true = some s) ∧
    capacity_typenum 0 true = some "rtfm::export::consts::U1" := by
  refine ⟨?_, ?_, by decide⟩
  · intro c hc _
    have hnone : checked_next_power_of_two c = none := by
      rw [checked_next_power_of_two, List.find?_eq_none]
      intro x hx
      simp only [List.mem_map, List.mem_range] at hx
      obtain ⟨k, hk, rfl⟩ := hx
      have hle : 2 ^ k ≤ 128 := by interval_cases k <;> norm_num
      simp only [decide_eq_true_eq]
      omega
    simp [capacity_typenum, hnone]
  · intro c hc
    obtain ⟨h1, -⟩ := next_pow2_u8_core ⟨c, Nat.lt_succ_of_le hc⟩
    exact ⟨"rtfm::export::consts::U" ++ Nat.repr (next_pow2_u8 c),
      by simp [capacity_typenum, h1]⟩

/-- Witness for C8 at the concrete capacities 200 and 5. -/
theorem capacity_typenum_partiality_witness :
    (129 ≤ 200 ∧ 200 ≤ 255 ∧ capacity_typenum 200 true = none) ∧
    (5 ≤ 128 ∧ ∃ s, capacity_typenum 5 true = some s) :=
  ⟨⟨by decide, by decide, capacity_typenum_partiality.1 200 (by decide) (by decide)⟩,
   ⟨by decide, capacity_typenum_partiality.2.1 5 (by decide)⟩⟩

/-- C2: the lock implementation produced by `impl_mutex` embeds the
resource's declared ceiling, unchanged, as the `CEILING` constant and passes
it to the locking primitive together with the caller's current priority
expression; executing the generated lock runs the body at an effective
priority equal to the ceiling, returns the body's result, and leaves the
caller's priority restored on exit. -/
theorem impl_mutex_embeds_ceiling {σ α : Type} (extra : Extra)
    (cfgs : List String) (cc : Option String) (rp : Bool) (name ty : String)
    (ceiling : Nat) (ptr : String) (res : σ) (current : Nat) (f : σ → α) :
    (impl_mutex extra cfgs cc rp name ty ceiling ptr).ceiling_const = ceiling ∧
    (impl_mutex extra cfgs cc rp name ty ceiling ptr).lock_arg_ceiling = ceiling ∧
    (impl_mutex extra cfgs cc rp name ty ceiling ptr).lock_arg_priority =
      (if rp then "self.priority()" else "self.priority") ∧
    ((impl_mutex extra cfgs cc rp name ty ceiling ptr).run_lock res current
        f).body_priority = ceiling ∧
    ((impl_mutex extra cfgs cc rp name ty ceiling ptr).run_lock res current
        f).result = f res ∧
    ((impl_mutex extra cfgs cc rp name ty ceiling ptr).run_lock res current
        f).exit_priority = current :=
  ⟨rfl, rfl, rfl, rfl, rfl, rfl⟩

/-- C3: ready-queue identifiers are keyed by exactly the triple
(receiver core, priority, sender core): two `rq_ident` names agree exactly
when the triples agree, so exactly one dispatch queue name exists per
triple. -/
theorem rq_ident_keyed_by_triple {r p s r' p' s' : Nat}
    (hr : r < 256) (hp : p < 256) (hs : s < 256)
    (hr' : r' < 256) (hp' : p' < 256) (hs' : s' < 256) :
    rq_ident r p s = rq_ident r' p' s' ↔ (r = r' ∧ p = p' ∧ s = s') := by
  constructor
  · intro h
    have hd := congrArg String.data h
    simp only [rq_ident, String.data_append, List.append_assoc] at hd
    have hd2 : (Nat.repr r).data ++ ('_' :: 'P' :: ((Nat.repr p).data ++
        ('_' :: 'S' :: ((Nat.repr s).data ++ ['_', 'R', 'Q'])))) =
        (Nat.repr r').data ++ ('_' :: 'P' :: ((Nat.repr p').data ++
        ('_' :: 'S' :: ((Nat.repr s').data ++ ['_', 'R', 'Q'])))) := by
      have h0 := hd
      simp only [show ("R" : String).data = ['R'] from rfl,
        show ("_P" : String).data = ['_', 'P'] from rfl,
        show ("_S" : String).data = ['_', 'S'] from rfl,
        show ("_RQ" : String).data = ['_', 'R', 'Q'] from rfl,
        List.cons_append, List.nil_append, List.cons.injEq, true_and] at h0
      exact h0
    obtain ⟨h1, h2⟩ := digit_block_cancel hr hr'
      (nondigit_head (by decide) _) (nondigit_head (by decide) _) hd2
    rw [List.cons.injEq, List.cons.injEq] at h2
    obtain ⟨-, -, h2⟩ := h2
    obtain ⟨h3, h4⟩ := digit_block_cancel hp hp'
      (nondigit_head (by decide) _) (nondigit_head (by decide) _) h2
    rw [List.cons.injEq, List.cons.injEq] at h4
    obtain ⟨-, -, h4⟩ := h4
    obtain ⟨h5, -⟩ := digit_block_cancel hs hs'
      (nondigit_head (by decide) _) (nondigit_head (by decide) _) h4
    exact ⟨h1, h3, h5⟩
  · rintro ⟨rfl, rfl, rfl⟩
    rfl

/-- Witness for C3 at the concrete triple (0, 1, 2). -/
theorem rq_ident_keyed_by_triple_witness :
    ((0 : Nat) < 256 ∧ (1 : Nat) < 256 ∧ (2 : Nat) < 256) ∧
    (rq_ident 0 1 2 = rq_ident 0 1 2 ↔
      ((0 : Nat) = 0 ∧ (1 : Nat) = 1 ∧ (2 : Nat) = 2)) :=
  ⟨⟨by decide, by decide, by decide⟩,
   rq_ident_keyed_by_triple (by decide) (by decide) (by decide)
     (by decide) (by decide) (by decide)⟩

/-- C4: every generated entity name is derived deterministically from its key
alone: invoking the same identifier-generation function on equal inputs
yields identical names (in this pure embedding each generator is a function
of its key and of nothing else). -/
theorem ident_generation_deterministic :
    (∀ (t : String) (s : Nat) (t' : String) (s' : Nat),
      t = t' → s = s' → fq_ident t s = fq_ident t' s') ∧
    (∀ r p s r' p' s' : Nat,
      r = r' → p = p' → s = s' → rq_ident r p s = rq_ident r' p' s') ∧
    (∀ c c' : Nat, c = c' → tq_ident c = tq_ident c') ∧
    (∀ (t : String) (s : Nat) (t' : String) (s' : Nat),
      t = t' → s = s' → spawn_ident t s = spawn_ident t' s') ∧
    (∀ (t : String) (s : Nat) (t' : String) (s' : Nat),
      t = t' → s = s' → schedule_ident t s = schedule_ident t' s') ∧
    (∀ (t : String) (s : Nat) (t' : String) (s' : Nat),
      t = t' → s = s' → inputs_ident t s = inputs_ident t' s') ∧
    (∀ c c' : Nat, c = c' → init_barrier c = init_barrier c') ∧
    (∀ c c' : Nat, c = c' → rendezvous_ident c = rendezvous_ident c') ∧
    (∀ c c' : Nat, c = c' → spawn_barrier c = spawn_barrier c') := by
  refine ⟨?_, ?_, ?_, ?_, ?_, ?_, ?_, ?_, ?_⟩ <;> intros <;> subst_vars <;> rfl

/-- Witness for C4 at the concrete key ("foo", 0). -/
theorem ident_generation_deterministic_witness :
    ("foo" = "foo" ∧ (0 : Nat) = 0) ∧ fq_ident "foo" 0 = fq_ident "foo" 0 :=
  ⟨⟨rfl, rfl⟩, ident_generation_deterministic.1 "foo" 0 "foo" 0 rfl rfl⟩

/-- Cancels an identifier of the common shape `{task}_S{sender}{tag}`:
if two such names agree (same literal tag), the task names and the senders
agree. Proven by reading the name from the right, where the sender's digit
run is delimited by the non-digit `S`. -/
theorem sender_suffix_cancel {t t' : String} {s s' : Nat}
    (hs : s < 256) (hs' : s' < 256) (tag : List Char)
    (h : t.data ++ ('_' :: 'S' :: ((Nat.repr s).data ++ tag)) =
         t'.data ++ ('_' :: 'S' :: ((Nat.repr s').data ++ tag))) : t = t' ∧ s = s' := by
  have hrev := congrArg List.reverse h
  simp only [List.reverse_append, List.reverse_cons, List.append_assoc,
    List.singleton_append, List.cons_append, List.nil_append] at hrev
  have hrev2 := List.append_cancel_left hrev
  obtain ⟨h1, h2⟩ := digit_block_cancel_rev hs hs'
    (nondigit_head (by decide) _) (nondigit_head (by decide) _) hrev2
  rw [List.cons.injEq, List.cons.injEq] at h2
  obtain ⟨-, -, h2⟩ := h2
  exact ⟨String.ext (List.reverse_injective h2), h1⟩

/-- C5: free-queue and input-pool identifiers are keyed by exactly the pair
(task, sender core): two `fq_ident` names agree exactly when the pairs agree,
and likewise for `inputs_ident`, so each family has exactly one name per
pair. -/
theorem fq_inputs_keyed_by_pair {t t' : String} {s s' : Nat}
    (hs : s < 256) (hs' : s' < 256) :
    (fq_ident t s = fq_ident t' s' ↔ (t = t' ∧ s = s')) ∧
    (inputs_ident t s = inputs_ident t' s' ↔ (t = t' ∧ s = s')) := by
  constructor
  · constructor
    · intro h
      have hd := congrArg String.data h
      simp only [fq_ident, String.data_append, List.append_assoc] at hd
      have hd2 : t.data ++ ('_' :: 'S' :: ((Nat.repr s).data ++ ['_', 'F', 'Q'])) =
          t'.data ++ ('_' :: 'S' :: ((Nat.repr s').data ++ ['_', 'F', 'Q'])) := by
        have h0 := hd
        simp only [show ("_S" : String).data = ['_', 'S'] from rfl,
          show ("_FQ" : String).data = ['_', 'F', 'Q'] from rfl,
          List.cons_append, List.nil_append] at h0
        exact h0
      exact sender_suffix_cancel hs hs' _ hd2
    · rintro ⟨rfl, rfl⟩
      rfl
  · constructor
    · intro h
      have hd := congrArg String.data h
      simp only [inputs_ident, String.data_append, List.append_assoc] at hd
      have hd2 : t.data ++ ('_' :: 'S' :: ((Nat.repr s).data ++
          ['_', 'I', 'N', 'P', 'U', 'T', 'S'])) =
          t'.data ++ ('_' :: 'S' :: ((Nat.repr s').data ++
          ['_', 'I', 'N', 'P', 'U', 'T', 'S'])) := by
        have h0 := hd
        simp only [show ("_S" : String).data = ['_', 'S'] from rfl,
          show ("_INPUTS" : String).data = ['_', 'I', 'N', 'P', 'U', 'T', 'S'] from rfl,
          List.cons_append, List.nil_append] at h0
        exact h0
      exact sender_suffix_cancel hs hs' _ hd2
    · rintro ⟨rfl, rfl⟩
      rfl

/-- Witness for C5 at the concrete pair ("foo", 3). -/
theorem fq_inputs_keyed_by_pair_witness :
    ((3 : Nat) < 256) ∧
    ((fq_ident "foo" 3 = fq_ident "foo" 3 ↔ ("foo" = "foo" ∧ (3 : Nat) = 3)) ∧
     (inputs_ident "foo" 3 = inputs_ident "foo" 3 ↔ ("foo" = "foo" ∧ (3 : Nat) = 3))) :=
  ⟨by decide, fq_inputs_keyed_by_pair (by decide) (by decide)⟩

/-- C6: timer-queue identifiers are keyed by the core alone: `tq_ident` takes
only the core (its name depends on no other parameter), and distinct cores
yield distinct names, so exactly one timer queue name exists per core. -/
theorem tq_ident_keyed_by_core {c c' : Nat} (hc : c < 256) (hc' : c' < 256) :
    tq_ident c = tq_ident c' ↔ c = c' := by
  constructor
  · intro h
    have hd := congrArg String.data h
    simp only [tq_ident, String.data_append,
      show ("TQ" : String).data = ['T', 'Q'] from rfl,
      List.cons_append, List.nil_append, List.cons.injEq, true_and] at hd
    exact repr_data_inj hc hc' hd
  · rintro rfl
    rfl

/-- Witness for C6 at the concrete core 7. -/
theorem tq_ident_keyed_by_core_witness :
    ((7 : Nat) < 256) ∧ (tq_ident 7 = tq_ident 7 ↔ (7 : Nat) = 7) :=
  ⟨by decide, tq_ident_keyed_by_core (by decide) (by decide)⟩

/-- C7: the three cross-core barrier families are each identified by a single
core — `IB` by the initializing core, `RV` by its own core, `SB` by the
receiving core — the families are pairwise disjoint (no init-barrier name
ever equals a rendezvous- or spawn-barrier name), and within each family
distinct cores yield distinct names. -/
theorem barrier_ident_families {c c' : Nat} (hc : c < 256) (hc' : c' < 256) :
    (∀ a b : Nat, init_barrier a ≠ rendezvous_ident b) ∧
    (∀ a b : Nat, init_barrier a ≠ spawn_barrier b) ∧
    (∀ a b : Nat, rendezvous_ident a ≠ spawn_barrier b) ∧
    (init_barrier c = init_barrier c' ↔ c = c') ∧
    (rendezvous_ident c = rendezvous_ident c' ↔ c = c') ∧
    (spawn_barrier c = spawn_barrier c' ↔ c = c') := by
  refine ⟨?_, ?_, ?_, ?_, ?_, ?_⟩
  · intro a b h
    have hd := congrArg String.data h
    simp only [init_barrier, rendezvous_ident, String.data_append,
      show ("IB" : String).data = ['I', 'B'] from rfl,
      show ("RV" : String).data = ['R', 'V'] from rfl,
      List.cons_append, List.nil_append, List.cons.injEq] at hd
    exact absurd hd.1 (by decide)
  · intro a b h
    have hd := congrArg String.data h
    simp only [init_barrier, spawn_barrier, String.data_append,
      show ("IB" : String).data = ['I', 'B'] from rfl,
      show ("SB" : String).data = ['S', 'B'] from rfl,
      List.cons_append, List.nil_append, List.cons.injEq] at hd
    exact absurd hd.1 (by decide)
  · intro a b h
    have hd := congrArg String.data h
    simp only [rendezvous_ident, spawn_barrier, String.data_append,
      show ("RV" : String).data = ['R', 'V'] from rfl,
      show ("SB" : String).data = ['S', 'B'] from rfl,
      List.cons_append, List.nil_append, List.cons.injEq] at hd
    exact absurd hd.1 (by decide)
  · constructor
    · intro h
      have hd := congrArg String.data h
      simp only [init_barrier, String.data_append,
        show ("IB" : String).data = ['I', 'B'] from rfl,
        List.cons_append, List.nil_append, List.cons.injEq, true_and] at hd
      exact repr_data_inj hc hc' hd
    · rintro rfl
      rfl
  · constructor
    · intro h
      have hd := congrArg String.data h
      simp only [rendezvous_ident, String.data_append,
        show ("RV" : String).data = ['R', 'V'] from rfl,
        List.cons_append, List.nil_append, List.cons.injEq, true_and] at hd
      exact repr_data_inj hc hc' hd
    · rintro rfl
      rfl
  · constructor
    · intro h
      have hd := congrArg String.data h
      simp only [spawn_barrier, String.data_append,
        show ("SB" : String).data = ['S', 'B'] from rfl,
        List.cons_append, List.nil_append, List.cons.injEq, true_and] at hd
      exact repr_data_inj hc hc' hd
    · rintro rfl
      rfl

/-- Witness for C7 at the concrete cores 0 and 1. -/
theorem barrier_ident_families_witness :
    ((0 : Nat) < 256 ∧ (1 : Nat) < 256) ∧
    init_barrier 0 ≠ rendezvous_ident 1 ∧
    (init_barrier 0 = init_barrier 1 ↔ (0 : Nat) = 1) :=
  ⟨⟨by decide, by decide⟩,
   (@barrier_ident_families 0 1 (by decide) (by decide)).1 0 1,
   (@barrier_ident_families 0 1 (by decide) (by decide)).2.2.2.1⟩

/-- Mapping a function of the index over `List.enum` is mapping it over the
index range. -/
theorem enum_map_fst {α β : Type} (l : List α) (f : Nat → β) :
    l.enum.map (fun p => f p.1) = (List.range l.length).map f := by
  rw [List.enum_eq_zip_range,
    show (fun p : Nat × α => f p.1) = f ∘ Prod.fst from rfl, ← List.map_map,
    List.map_fst_zip _ _ (by simp)]

/-- C9: `regroup_inputs` returns argument and pattern lists whose length is
the input count; the pattern list binds `_0`, `_1`, ... in declaration order
and the argument list pairs those same bindings with the input types in
declaration order (element `i` is `_i: ty_i`); for exactly one input the
payload type is that input's own type (not a 1-tuple) and the tupled pattern
is the single binding `_0`; for any other input count the payload type is
the tuple of the input types and the tupled pattern tuples the bindings,
with the unit type `()` for zero inputs. -/
theorem regroup_inputs_spec (inputs : List String) :
    ((regroup_inputs inputs).1.length = inputs.length ∧
     (regroup_inputs inputs).2.2.1.length = inputs.length) ∧
    (regroup_inputs inputs).1 =
      ((List.range inputs.length).zip inputs).map
        (fun p => "_" ++ Nat.repr p.1 ++ ": " ++ p.2) ∧
    (regroup_inputs inputs).2.2.1 =
      (List.range inputs.length).map (fun i => "_" ++ Nat.repr i) ∧
    (∀ t, inputs = [t] →
      regroup_inputs inputs = (["_0: " ++ t], "_0", ["_0"], t)) ∧
    (inputs.length ≠ 1 →
      (regroup_inputs inputs).2.2.2 =
        "(" ++ String.join (inputs.map (fun t => t ++ ", ")) ++ ")" ∧
      (regroup_inputs inputs).2.1 =
        "(" ++ String.join ((regroup_inputs inputs).2.2.1.map
          (fun p => p ++ ", ")) ++ ")") ∧
    (regroup_inputs []).2.2.2 = "()" := by
  by_cases h1 : inputs.length = 1
  · obtain ⟨t, rfl⟩ := List.length_eq_one.mp h1
    refine ⟨⟨rfl, rfl⟩, ?_, ?_, ?_, ?_, by decide⟩
    · show ["_0: " ++ t] = ["_" ++ Nat.repr 0 ++ ": " ++ t]
      have hs : ("_0: " : String) = "_" ++ Nat.repr 0 ++ ": " := by decide
      rw [hs]
    · show ["_0"] = ["_" ++ Nat.repr 0]
      decide
    · intro u hu
      rw [List.cons.injEq] at hu
      rw [hu.1]
      rfl
    · intro hne
      exact absurd rfl hne
  · have hif : regroup_inputs inputs =
        (inputs.enum.map (fun p => "_" ++ Nat.repr p.1 ++ ": " ++ p.2),
         "(" ++ String.join ((inputs.enum.map (fun p => "_" ++ Nat.repr p.1)).map
           (fun p => p ++ ", ")) ++ ")",
         inputs.enum.map (fun p => "_" ++ Nat.repr p.1),
         "(" ++ String.join (inputs.map (fun t => t ++ ", ")) ++ ")") := by
      rw [regroup_inputs, if_neg h1]
    have hpats : inputs.enum.map (fun p => "_" ++ Nat.repr p.1) =
        (List.range inputs.length).map (fun i => "_" ++ Nat.repr i) :=
      enum_map_fst inputs (fun i => "_" ++ Nat.repr i)
    refine ⟨⟨?_, ?_⟩, ?_, ?_, ?_, ?_, by decide⟩
    · rw [hif]
      simp [List.enum_length]
    · rw [hif]
      simp [List.enum_length]
    · rw [hif]
      show inputs.enum.map (fun p => "_" ++ Nat.repr p.1 ++ ": " ++ p.2) =
        ((List.range inputs.length).zip inputs).map
          (fun p => "_" ++ Nat.repr p.1 ++ ": " ++ p.2)
      rw [List.enum_eq_zip_range]
    · rw [hif]
      exact hpats
    · intro u hu
      rw [hu] at h1
      exact absurd rfl h1
    · intro _
      rw [hif]
      exact ⟨rfl, by rw [hpats]⟩

/-- Witness for C9 at the concrete input lists ["i32", "i64"] and ["Foo"]. -/
theorem regroup_inputs_spec_witness :
    ((["i32", "i64"].length ≠ 1) ∧
     ((regroup_inputs ["i32", "i64"]).2.2.2 =
        "(" ++ String.join (["i32", "i64"].map (fun t => t ++ ", ")) ++ ")" ∧
      (regroup_inputs ["i32", "i64"]).2.1 =
        "(" ++ String.join ((regroup_inputs ["i32", "i64"]).2.2.1.map
          (fun p => p ++ ", ")) ++ ")")) ∧
    (["Foo"] = ["Foo"] ∧
     regroup_inputs ["Foo"] = (["_0: " ++ "Foo"], "_0", ["_0"], "Foo")) :=
  ⟨⟨by decide, (regroup_inputs_spec ["i32", "i64"]).2.2.2.2.1 (by decide)⟩,
   ⟨rfl, (regroup_inputs_spec ["Foo"]).2.2.2.1 "Foo" rfl⟩⟩

/-- C10: `cfg_core` returns no attribute exactly in single-core builds
(`cores = 1`); otherwise it returns the `#[cfg(core = "N")]` attribute whose
string is the decimal rendering of the given core. -/
theorem cfg_core_spec (core cores : Nat) :
    (cfg_core core cores = none ↔ cores = 1) ∧
    (cores ≠ 1 → cfg_core core cores =
      some ("#[cfg(core = \"" ++ Nat.repr core ++ "\")]")) := by
  by_cases h : cores = 1 <;> simp [cfg_core, h]

/-- Witness for C10 at the concrete pair (core 3, cores 2). -/
theorem cfg_core_spec_witness :
    (2 ≠ 1) ∧ cfg_core 3 2 = some ("#[cfg(core = \"" ++ Nat.repr 3 ++ "\")]") :=
  ⟨by decide, (cfg_core_spec 3 2).2 (by decide)⟩

end Rtfm
